import Mathlib

/-!
Verification of the document-qa backend against its design specification.

The Python sources are shallowly embedded: pure computations become Lean
functions over `ℚ`, `Nat`, `String` and lists; the JSON metadata store
becomes explicit state passing over association lists; fallible operations
return `Except`/`Option`.  Floating-point arithmetic in the source is
modelled with exact rational arithmetic, and ISO-8601 timestamp strings
(whose lexicographic order is chronological order) are modelled as natural
numbers.
-/

namespace DocQA

/-! ### Confidence scoring (src/backend/app/rag_engine/query_engine.py, QueryEngine.query, lines 119-159) -/

/-- `min(distances)` for a nonempty Python list (defaults to 0 on `[]`,
which is unreachable behind the nonemptiness guard in the source). -/
def minD : List ℚ → ℚ
  | [] => 0
  | [a] => a
  | a :: b :: rest => min a (minD (b :: rest))

/-- `max(distances)` for a nonempty Python list (defaults to 0 on `[]`). -/
def maxD : List ℚ → ℚ
  | [] => 0
  | [a] => a
  | a :: b :: rest => max a (maxD (b :: rest))

/-- `sorted(similarities, reverse=True)`. -/
def sortDesc (l : List ℚ) : List ℚ := l.insertionSort (· ≥ ·)

/-- Lines 124-135: convert each distance to a similarity.  If all distances
lie in [0,1] (checked via `min`/`max` as in the source) use `1 - d`;
otherwise min-max normalize to [0,1] and invert, with range 1 when
`max <= min`. -/
def toSimilarities (ds : List ℚ) : List ℚ :=
  if 0 ≤ minD ds ∧ maxD ds ≤ 1 then
    ds.map (fun d => 1 - d)
  else
    let rangeD := if minD ds < maxD ds then maxD ds - minD ds else 1
    ds.map (fun d => 1 - (d - minD ds) / rangeD)

/-- Lines 141-144: `[0.6, 0.3, 0.1]` truncated to `n` values and
renormalized to sum 1. -/
def weightsFor (n : Nat) : List ℚ :=
  let w : List ℚ := [6/10, 3/10, 1/10].take n
  w.map (fun x => x / w.sum)

/-- Line 147: `sum(s * w for s, w in zip(top_similarities, weights))`. -/
def weightedSum (tops : List ℚ) : ℚ :=
  (List.zipWith (fun s w => s * w) tops (weightsFor tops.length)).sum

/-- Lines 151-156: the piecewise rescaling of the raw weighted confidence. -/
def rescale (c : ℚ) : ℚ :=
  if c < 1/5 then c * (1/2)
  else if c < 1/2 then 1/5 + (c - 1/5) * (7/10)
  else 41/100 + (c - 1/2) * (118/100)

/-- Line 159: `max(0.01, min(1.0, confidence))`. -/
def clamp01 (c : ℚ) : ℚ := max (1/100) (min 1 c)

/-- Lines 119-159 of `QueryEngine.query`: the confidence computed from the
list of search-result distances.  `confidence` starts at the 0.5 default and
is only recomputed when the distance list is nonempty. -/
def computeConfidence (ds : List ℚ) : ℚ :=
  if ds.isEmpty then 1/2
  else
    let tops := (sortDesc (toSimilarities ds)).take 3
    let conf := if tops.isEmpty then (1/2 : ℚ) else rescale (weightedSum tops)
    clamp01 conf

/-- Similarity conversion as the specification words it: `1 - d` when all
distances lie in [0,1], otherwise min-max normalized to [0,1] and inverted. -/
def specSimilarities (ds : List ℚ) : List ℚ :=
  if ∀ d ∈ ds, 0 ≤ d ∧ d ≤ 1 then ds.map (fun d => 1 - d)
  else ds.map (fun d =>
    1 - (d - minD ds) / (if minD ds < maxD ds then maxD ds - minD ds else 1))

/-- The confidence pipeline exactly as the specification words it: similarity
conversion keyed on "all distances lie in [0,1]", top-3 weighting with
truncated/renormalized weights, piecewise rescale, clamp to [0.01, 1], and
the fixed 0.5 no-evidence default on an empty result set. -/
def specConfidence (ds : List ℚ) : ℚ :=
  match ds with
  | [] => 1/2
  | _ :: _ => clamp01 (rescale (weightedSum ((sortDesc (specSimilarities ds)).take 3)))

lemma minD_le {l : List ℚ} {x : ℚ} (hx : x ∈ l) : minD l ≤ x := by
  induction l with
  | nil => cases hx
  | cons a t ih =>
    cases t with
    | nil =>
      rcases List.mem_singleton.mp hx with rfl
      simp [minD]
    | cons b r =>
      rcases List.mem_cons.mp hx with rfl | hx'
      · simp [minD]
      · exact le_trans (by simp [minD]) (ih hx')

lemma le_minD {l : List ℚ} {c : ℚ} (hl : l ≠ []) (h : ∀ x ∈ l, c ≤ x) :
    c ≤ minD l := by
  induction l with
  | nil => exact absurd rfl hl
  | cons a t ih =>
    cases t with
    | nil => simpa [minD] using h a (by simp)
    | cons b r =>
      have h1 : c ≤ a := h a (by simp)
      have h2 : c ≤ minD (b :: r) :=
        ih (by simp) (fun x hx => h x (List.mem_cons_of_mem _ hx))
      simp [minD, le_min_iff]
      exact ⟨h1, h2⟩

lemma le_maxD {l : List ℚ} {x : ℚ} (hx : x ∈ l) : x ≤ maxD l := by
  induction l with
  | nil => cases hx
  | cons a t ih =>
    cases t with
    | nil =>
      rcases List.mem_singleton.mp hx with rfl
      simp [maxD]
    | cons b r =>
      rcases List.mem_cons.mp hx with rfl | hx'
      · simp [maxD]
      · exact le_trans (ih hx') (by simp [maxD])

lemma maxD_le {l : List ℚ} {c : ℚ} (hl : l ≠ []) (h : ∀ x ∈ l, x ≤ c) :
    maxD l ≤ c := by
  induction l with
  | nil => exact absurd rfl hl
  | cons a t ih =>
    cases t with
    | nil => simpa [maxD] using h a (by simp)
    | cons b r =>
      have h1 : a ≤ c := h a (by simp)
      have h2 : maxD (b :: r) ≤ c :=
        ih (by simp) (fun x hx => h x (List.mem_cons_of_mem _ hx))
      simp [maxD, max_le_iff]
      exact ⟨h1, h2⟩

lemma minMax_branch_iff {ds : List ℚ} (hds : ds ≠ []) :
    (0 ≤ minD ds ∧ maxD ds ≤ 1) ↔ (∀ d ∈ ds, 0 ≤ d ∧ d ≤ 1) := by
  constructor
  · rintro ⟨h0, h1⟩ d hd
    exact ⟨le_trans h0 (minD_le hd), le_trans (le_maxD hd) h1⟩
  · intro h
    exact ⟨le_minD hds (fun x hx => (h x hx).1), maxD_le hds (fun x hx => (h x hx).2)⟩

lemma sortDesc_length (l : List ℚ) : (sortDesc l).length = l.length :=
  List.length_insertionSort _ l

lemma toSimilarities_length (ds : List ℚ) :
    (toSimilarities ds).length = ds.length := by
  unfold toSimilarities
  split <;> simp

lemma specSimilarities_eq {ds : List ℚ} (h : ds ≠ []) :
    specSimilarities ds = toSimilarities ds := by
  unfold specSimilarities toSimilarities
  exact if_congr (minMax_branch_iff h).symm rfl rfl

lemma take3_isEmpty_false {ds : List ℚ} (h : ds ≠ []) :
    ((sortDesc (toSimilarities ds)).take 3).isEmpty = false := by
  cases hL : (sortDesc (toSimilarities ds)).take 3 with
  | nil =>
    exfalso
    have hlen := congrArg List.length hL
    rw [List.length_take, sortDesc_length, toSimilarities_length] at hlen
    cases ds with
    | nil => exact h rfl
    | cons a t => simp at hlen
  | cons x xs => rfl

lemma computeConfidence_of_ne_nil {ds : List ℚ} (h : ds ≠ []) :
    computeConfidence ds =
      clamp01 (rescale (weightedSum ((sortDesc (toSimilarities ds)).take 3))) := by
  cases ds with
  | nil => exact absurd rfl h
  | cons a t =>
    have h3 := @take3_isEmpty_false (a :: t) (by simp)
    simp [computeConfidence, h3]

/-- C1: the confidence returned by `QueryEngine.query` equals the pipeline
described in the specification (distance-to-similarity conversion, top-3
weighting with truncated and renormalized weights `[0.6, 0.3, 0.1]`,
piecewise rescaling, clamping to `[0.01, 1]`), and it equals the fixed
no-evidence default 0.5 when the search returns no results. -/
theorem confidence_matches_spec_pipeline (ds : List ℚ) :
    computeConfidence ds = specConfidence ds := by
  cases ds with
  | nil => rfl
  | cons a t =>
    rw [computeConfidence_of_ne_nil (by simp)]
    unfold specConfidence
    rw [specSimilarities_eq (by simp)]

lemma forall₂_le_refl (l : List ℚ) : List.Forall₂ (· ≤ ·) l l :=
  List.forall₂_same.mpr (fun x _ => le_refl x)

lemma orderedInsert_le_cons : ∀ (L : List ℚ) (x b : ℚ),
    L.Sorted (· ≥ ·) → x ≤ b → (∀ c ∈ L, c ≤ b) →
    List.Forall₂ (· ≤ ·) (L.orderedInsert (· ≥ ·) x) (b :: L)
  | [], x, b, _, hxb, _ => .cons hxb .nil
  | c :: m, x, b, hs, hxb, hLb => by
    rw [List.orderedInsert]
    by_cases hxc : x ≥ c
    · rw [if_pos hxc]
      exact .cons hxb (forall₂_le_refl (c :: m))
    · rw [if_neg hxc]
      refine .cons (hLb c (by simp)) ?_
      exact orderedInsert_le_cons m x c (List.sorted_cons.mp hs).2
        (le_of_lt (lt_of_not_ge hxc)) (List.sorted_cons.mp hs).1

lemma orderedInsert_mono : ∀ (L : List ℚ) (x y : ℚ),
    L.Sorted (· ≥ ·) → x ≤ y →
    List.Forall₂ (· ≤ ·) (L.orderedInsert (· ≥ ·) x) (L.orderedInsert (· ≥ ·) y)
  | [], x, y, _, hxy => .cons hxy .nil
  | b :: m, x, y, hs, hxy => by
    rw [List.orderedInsert, List.orderedInsert]
    by_cases hxb : x ≥ b <;> by_cases hyb : y ≥ b
    · rw [if_pos hxb, if_pos hyb]
      exact .cons hxy (forall₂_le_refl (b :: m))
    · exact absurd (le_trans hxb hxy) hyb
    · rw [if_neg hxb, if_pos hyb]
      refine .cons hyb ?_
      exact orderedInsert_le_cons m x b (List.sorted_cons.mp hs).2
        (le_of_lt (lt_of_not_ge hxb)) (List.sorted_cons.mp hs).1
    · rw [if_neg hxb, if_neg hyb]
      exact .cons (le_refl b) (orderedInsert_mono m x y (List.sorted_cons.mp hs).2 hxy)

lemma sortDesc_cons_mono {L : List ℚ} {x y : ℚ} (hxy : x ≤ y) :
    List.Forall₂ (· ≤ ·) (sortDesc (x :: L)) (sortDesc (y :: L)) := by
  unfold sortDesc
  rw [List.insertionSort, List.insertionSort]
  exact orderedInsert_mono _ x y (List.sorted_insertionSort _ L) hxy

lemma sortDesc_congr_perm {l₁ l₂ : List ℚ} (h : List.Perm l₁ l₂) : sortDesc l₁ = sortDesc l₂ :=
  List.eq_of_perm_of_sorted
    ((List.perm_insertionSort _ l₁).trans (h.trans (List.perm_insertionSort _ l₂).symm))
    (List.sorted_insertionSort _ l₁) (List.sorted_insertionSort _ l₂)

lemma weightsFor_nonneg (n : Nat) : ∀ w ∈ weightsFor n, 0 ≤ w := by
  match n with
  | 0 => simp [weightsFor]
  | 1 => norm_num [weightsFor]
  | 2 => norm_num [weightsFor]
  | n + 3 => norm_num [weightsFor, List.take]

lemma zipWith_sum_mono : ∀ {t t' : List ℚ} (ws : List ℚ),
    List.Forall₂ (· ≤ ·) t t' → (∀ w ∈ ws, 0 ≤ w) →
    (List.zipWith (fun s w => s * w) t ws).sum ≤
      (List.zipWith (fun s w => s * w) t' ws).sum
  | _, _, _, .nil, _ => by simp
  | _, _, [], .cons _ _, _ => by simp
  | _, _, w :: ws, .cons hab htail, hw => by
    simp only [List.zipWith, List.sum_cons]
    have h1 : _ ≤ _ := mul_le_mul_of_nonneg_right hab (hw w (by simp))
    have h2 := zipWith_sum_mono ws htail (fun v hv => hw v (List.mem_cons_of_mem _ hv))
    exact add_le_add h1 h2

lemma weightedSum_mono {t t' : List ℚ} (h : List.Forall₂ (· ≤ ·) t t') :
    weightedSum t ≤ weightedSum t' := by
  unfold weightedSum
  rw [h.length_eq]
  exact zipWith_sum_mono _ h (weightsFor_nonneg _)

lemma rescale_mono {a b : ℚ} (h : a ≤ b) : rescale a ≤ rescale b := by
  unfold rescale
  split_ifs <;> linarith

lemma clamp01_mono {a b : ℚ} (h : a ≤ b) : clamp01 a ≤ clamp01 b :=
  max_le_max le_rfl (min_le_min le_rfl h)

/-- C4 counterexample: the two result sets `[0.5, 2]` and `[0.5, 1]` are
identical except for the second distance, which is strictly smaller in the
second set, yet the confidence computed from the second set (22/75 ≈ 0.293)
is strictly below the confidence computed from the first (91/150 ≈ 0.607):
decreasing the distance moved the computation from the min-max-normalization
branch into the `1 - d` branch. -/
theorem confidence_mono_counterexample :
    computeConfidence [1/2, 1] < computeConfidence [1/2, 2] := by
  norm_num [computeConfidence, sortDesc, toSimilarities, minD, maxD, weightedSum,
    weightsFor, rescale, clamp01, List.insertionSort, List.orderedInsert]

/-- C4 (amended): when both result sets lie entirely in `[0, 1]` — so that
the `similarity = 1 - distance` branch applies to both — strictly decreasing
a single distance never decreases the confidence computed by
`QueryEngine.query`. -/
theorem confidence_mono_within_unit_range
    (pre post : List ℚ) (d d' : ℚ)
    (h0 : 0 ≤ d') (hlt : d' < d) (h1 : d ≤ 1)
    (hall : ∀ x ∈ pre ++ post, 0 ≤ x ∧ x ≤ 1) :
    computeConfidence (pre ++ d :: post) ≤ computeConfidence (pre ++ d' :: post) := by
  have hd0 : 0 ≤ d := le_of_lt (lt_of_le_of_lt h0 hlt)
  have hd'1 : d' ≤ 1 := le_of_lt (lt_of_lt_of_le hlt h1)
  have hne : (pre ++ d :: post) ≠ [] := by simp
  have hne' : (pre ++ d' :: post) ≠ [] := by simp
  have hmem : ∀ x ∈ pre ++ d :: post, 0 ≤ x ∧ x ≤ 1 := by
    intro x hx
    rcases List.mem_append.mp hx with hp | hq
    · exact hall x (List.mem_append.mpr (Or.inl hp))
    · rcases List.mem_cons.mp hq with rfl | hq'
      · exact ⟨hd0, h1⟩
      · exact hall x (List.mem_append.mpr (Or.inr hq'))
  have hmem' : ∀ x ∈ pre ++ d' :: post, 0 ≤ x ∧ x ≤ 1 := by
    intro x hx
    rcases List.mem_append.mp hx with hp | hq
    · exact hall x (List.mem_append.mpr (Or.inl hp))
    · rcases List.mem_cons.mp hq with rfl | hq'
      · exact ⟨h0, hd'1⟩
      · exact hall x (List.mem_append.mpr (Or.inr hq'))
  have hts : toSimilarities (pre ++ d :: post) =
      (pre ++ d :: post).map (fun x => 1 - x) := by
    unfold toSimilarities
    rw [if_pos ((minMax_branch_iff hne).mpr hmem)]
  have hts' : toSimilarities (pre ++ d' :: post) =
      (pre ++ d' :: post).map (fun x => 1 - x) := by
    unfold toSimilarities
    rw [if_pos ((minMax_branch_iff hne').mpr hmem')]
  rw [computeConfidence_of_ne_nil hne, computeConfidence_of_ne_nil hne', hts, hts']
  have hperm : List.Perm ((pre ++ d :: post).map (fun x => 1 - x))
      ((1 - d) :: (pre.map (fun x => 1 - x) ++ post.map (fun x => 1 - x))) := by
    rw [List.map_append, List.map_cons]
    exact List.perm_middle
  have hperm' : List.Perm ((pre ++ d' :: post).map (fun x => 1 - x))
      ((1 - d') :: (pre.map (fun x => 1 - x) ++ post.map (fun x => 1 - x))) := by
    rw [List.map_append, List.map_cons]
    exact List.perm_middle
  rw [sortDesc_congr_perm hperm, sortDesc_congr_perm hperm']
  have hF : List.Forall₂ (· ≤ ·)
      (sortDesc ((1 - d) :: (pre.map (fun x => 1 - x) ++ post.map (fun x => 1 - x))))
      (sortDesc ((1 - d') :: (pre.map (fun x => 1 - x) ++ post.map (fun x => 1 - x)))) :=
    sortDesc_cons_mono (by linarith)
  exact clamp01_mono (rescale_mono (weightedSum_mono (List.forall₂_take 3 hF)))

/-- Witness for C4 (amended) at `pre = [0]`, `post = []`, `d = 1`, `d' = 1/2`. -/
theorem confidence_mono_within_unit_range_witness :
    (0 : ℚ) ≤ 1/2 ∧ (1/2 : ℚ) < 1 ∧ (1 : ℚ) ≤ 1 ∧
      (∀ x ∈ ([0] ++ [] : List ℚ), 0 ≤ x ∧ x ≤ 1) ∧
      computeConfidence ([0] ++ 1 :: []) ≤ computeConfidence ([0] ++ (1/2) :: []) :=
  ⟨by norm_num, by norm_num, le_rfl, by norm_num,
    confidence_mono_within_unit_range [0] [] 1 (1/2) (by norm_num) (by norm_num)
      le_rfl (by norm_num)⟩

/-! ### Chat metadata store (src/backend/app/db/database.py and
src/backend/app/api/chats.py)

The per-user chat directory is modelled as an association list from file
name (the chat id) to file content; a file either parses to a record or is
corrupt.  ISO-8601 timestamps, whose lexicographic string order is
chronological order, are modelled as naturals. -/

structure Msg where
  id : Option String
  sender : String
  text : String
deriving DecidableEq

structure ChatRec where
  chat_id : String
  title : String
  user_id : String
  created_at : Nat
  updated_at : Nat
  messages : List Msg
deriving DecidableEq

inductive ChatFile where
  | ok (c : ChatRec)
  | corrupt
deriving DecidableEq

abbrev ChatDir := List (String × ChatFile)

def lookupFile : ChatDir → String → Option ChatFile
  | [], _ => none
  | (k, f) :: rest, id => if k = id then some f else lookupFile rest id

/-- Writing `<id>.json` creates the file or replaces its content. -/
def upsertFile (files : ChatDir) (id : String) (f : ChatFile) : ChatDir :=
  files.filter (fun p => p.1 != id) ++ [(id, f)]

/-- `os.remove` of `<id>.json`. -/
def removeFile (files : ChatDir) (id : String) : ChatDir :=
  files.filter (fun p => p.1 != id)

/-- `JSONDatabase._repair_chat_file` (lines 203-221): the minimal valid
placeholder written over a corrupted chat file. -/
def repairChat (chatId : String) (now : Nat) : ChatRec :=
  { chat_id := chatId, title := "Recovered Chat", user_id := "unknown",
    created_at := now, updated_at := now, messages := [] }

/-- `JSONDatabase.get_chat` (lines 223-244): missing file gives `none`; a
parse failure repairs the file in place and re-reads it. -/
def getChat (now : Nat) (files : ChatDir) (chatId : String) :
    Option ChatRec × ChatDir :=
  match lookupFile files chatId with
  | none => (none, files)
  | some (.ok c) => (some c, files)
  | some .corrupt =>
      (some (repairChat chatId now),
       upsertFile files chatId (.ok (repairChat chatId now)))

/-- The collection loop of `JSONDatabase.get_chats_for_user` (lines
167-198): readable files contribute their record; corrupted files are
repaired on disk and the repaired record is included. -/
def readChats (now : Nat) : ChatDir → List ChatRec × ChatDir
  | [] => ([], [])
  | (id, f) :: rest =>
    let r := readChats now rest
    match f with
    | .ok c => (c :: r.1, (id, .ok c) :: r.2)
    | .corrupt => (repairChat id now :: r.1, (id, .ok (repairChat id now)) :: r.2)

/-- `chats.sort(key=..., reverse=True)`: newest first. -/
def sortChatsDesc (cs : List ChatRec) : List ChatRec :=
  cs.insertionSort (fun a b => a.created_at ≥ b.created_at)

/-- `JSONDatabase.get_chats_for_user`. -/
def getChatsForUser (now : Nat) (files : ChatDir) : List ChatRec × ChatDir :=
  let r := readChats now files
  (sortChatsDesc r.1, r.2)

/-- `min(existing_chats, key=lambda x: x.get("created_at", ""))`: Python's
`min` keeps the first element with the minimal key. -/
def oldestChat (best : ChatRec) : List ChatRec → ChatRec
  | [] => best
  | c :: rest => oldestChat (if c.created_at < best.created_at then c else best) rest

def oldestOf : List ChatRec → Option ChatRec
  | [] => none
  | c :: rest => some (oldestChat c rest)

/-- `JSONDatabase.delete_chat` (lines 308-320). -/
def deleteChat (files : ChatDir) (chatId : String) : Bool × ChatDir :=
  match lookupFile files chatId with
  | none => (false, files)
  | some _ => (true, removeFile files chatId)

/-- `JSONDatabase.create_chat` (lines 246-280): list the user's chats
(repairing corrupted files along the way); if there are already 5 or more,
delete the one with the oldest `created_at`; then stamp the new record and
write it.  The caller (the API layer) always supplies `chat_id` and
`messages`, so the `if "chat_id" not in ...` defaults are pre-satisfied. -/
def dbCreateChat (now : Nat) (files : ChatDir) (newData : ChatRec) :
    ChatRec × ChatDir :=
  let r := getChatsForUser now files
  let files1 :=
    if 5 ≤ r.1.length then
      match oldestOf r.1 with
      | some ev => (deleteChat r.2 ev.chat_id).2
      | none => r.2
    else r.2
  let newChat := { newData with created_at := now, updated_at := now }
  (newChat, upsertFile files1 newChat.chat_id (.ok newChat))

/-- The `create_chat` HTTP handler (src/backend/app/api/chats.py lines
47-68): when `get_chat_count` reports 5 or more chats the request is
rejected with an HTTP 400 before `JSONDatabase.create_chat` is ever
reached. -/
def apiCreateChat (now : Nat) (files : ChatDir) (newId userId title : String) :
    Except String (ChatRec × ChatDir) :=
  let r := getChatsForUser now files
  if 5 ≤ r.1.length then
    .error "You have reached the maximum limit of 5 chats. Please delete a chat before creating a new one."
  else
    .ok (dbCreateChat now r.2
      { chat_id := newId, title := title, user_id := userId,
        created_at := now, updated_at := now, messages := [] })

/-- `JSONDatabase.update_chat` (lines 282-306) as invoked from the message
endpoints: there the updates dictionary carries every field of the record,
so the merged record is the updates with `updated_at` refreshed. -/
def updateChat (now : Nat) (files : ChatDir) (chatId : String)
    (updates : ChatRec) : Option ChatRec × ChatDir :=
  let r := getChat now files chatId
  match r.1 with
  | none => (none, r.2)
  | some _ =>
      let merged := { updates with updated_at := now }
      (some merged, upsertFile r.2 chatId (.ok merged))

/-- The `delete_message` HTTP handler (src/backend/app/api/chats.py lines
120-139): read the chat, drop every message whose `id` equals `message_id`,
and persist the whole record through `update_chat`. -/
def apiDeleteMessage (now : Nat) (files : ChatDir) (chatId msgId : String) :
    Except String (ChatRec × ChatDir) :=
  let r := getChat now files chatId
  match r.1 with
  | none => .error "Chat not found"
  | some c =>
      let c1 := { c with messages := c.messages.filter (fun m => m.id != some msgId) }
      let u := updateChat now r.2 chatId c1
      match u.1 with
      | none => .error "Chat not found"
      | some res => .ok (res, u.2)

/-- A chat file is well formed when it parses and its stored `chat_id`
matches its file name. -/
def fileOk : (String × ChatFile) → Bool
  | (id, .ok c) => c.chat_id == id
  | (_, .corrupt) => false

/-- The records of the readable files, in directory order. -/
def valsOf (files : ChatDir) : List ChatRec :=
  files.filterMap (fun p => match p.2 with | .ok c => some c | .corrupt => none)

lemma lookupFile_eq_none {files : ChatDir} {id : String}
    (h : ∀ p ∈ files, p.1 ≠ id) : lookupFile files id = none := by
  induction files with
  | nil => rfl
  | cons p rest ih =>
    cases p with
    | mk k f =>
      rw [lookupFile, if_neg (h (k, f) (by simp))]
      exact ih (fun q hq => h q (List.mem_cons_of_mem _ hq))

lemma lookupFile_append (A B : ChatDir) (x : String) :
    lookupFile (A ++ B) x = (lookupFile A x).or (lookupFile B x) := by
  induction A with
  | nil => rfl
  | cons p rest ih =>
    cases p with
    | mk k g =>
      rw [List.cons_append, lookupFile, lookupFile]
      by_cases hk : k = x
      · rw [if_pos hk, if_pos hk]; rfl
      · rw [if_neg hk, if_neg hk]; exact ih

lemma filter_ne_keys {files : ChatDir} {id : String} :
    ∀ p ∈ files.filter (fun p => p.1 != id), p.1 ≠ id := by
  intro p hp
  have h2 := (List.mem_filter.mp hp).2
  exact bne_iff_ne.mp h2

lemma lookupFile_filter_ne {files : ChatDir} {id id' : String} (h : id' ≠ id) :
    lookupFile (files.filter (fun p => p.1 != id)) id' = lookupFile files id' := by
  induction files with
  | nil => rfl
  | cons p rest ih =>
    cases p with
    | mk k g =>
      rw [List.filter_cons]
      by_cases hk : k = id
      · rw [show ((k, g).1 != id) = false from by simp [hk]]
        simp only [Bool.false_eq_true, if_false]
        rw [lookupFile, if_neg (fun e : k = id' => h (e.symm.trans hk))]
        exact ih
      · rw [show ((k, g).1 != id) = true from by simp [hk], if_pos rfl]
        rw [lookupFile, lookupFile]
        by_cases hk' : k = id'
        · rw [if_pos hk', if_pos hk']
        · rw [if_neg hk', if_neg hk']; exact ih

lemma lookupFile_upsert (files : ChatDir) (id : String) (f : ChatFile) :
    lookupFile (upsertFile files id f) id = some f := by
  unfold upsertFile
  rw [lookupFile_append, lookupFile_eq_none (filter_ne_keys)]
  rw [lookupFile, if_pos rfl]
  rfl

lemma lookupFile_upsert_ne {files : ChatDir} {id id' : String} (f : ChatFile)
    (h : id' ≠ id) :
    lookupFile (upsertFile files id f) id' = lookupFile files id' := by
  unfold upsertFile
  rw [lookupFile_append, lookupFile_filter_ne h]
  rw [lookupFile, if_neg (fun e : id = id' => h e.symm)]
  cases lookupFile files id' <;> rfl

lemma lookupFile_removeFile (files : ChatDir) (id : String) :
    lookupFile (removeFile files id) id = none :=
  lookupFile_eq_none filter_ne_keys

lemma lookupFile_isSome_of_mem {files : ChatDir} {id : String}
    (h : id ∈ files.map Prod.fst) : ∃ f, lookupFile files id = some f := by
  induction files with
  | nil => simp at h
  | cons p rest ih =>
    cases p with
    | mk k g =>
      by_cases hk : k = id
      · exact ⟨g, by rw [lookupFile, if_pos hk]⟩
      · rw [lookupFile, if_neg hk]
        apply ih
        rcases List.mem_map.mp h with ⟨q, hq, hqe⟩
        rcases List.mem_cons.mp hq with rfl | hq'
        · exact absurd hqe hk
        · exact List.mem_map.mpr ⟨q, hq', hqe⟩

lemma removeFile_length {files : ChatDir} {id : String}
    (hnodup : (files.map Prod.fst).Nodup) (hmem : id ∈ files.map Prod.fst) :
    (removeFile files id).length + 1 = files.length := by
  induction files with
  | nil => simp at hmem
  | cons p rest ih =>
    cases p with
    | mk k g =>
      rw [List.map_cons, List.nodup_cons] at hnodup
      by_cases hk : k = id
      · subst hk
        have hrest : removeFile rest k = rest := by
          apply List.filter_eq_self.mpr
          intro q hq
          have hq1 : q.1 ≠ k := by
            intro he
            exact hnodup.1 (he ▸ List.mem_map.mpr ⟨q, hq, rfl⟩)
          simpa using hq1
        unfold removeFile
        rw [List.filter_cons, show ((k, g).1 != k) = false from by simp]
        simp only [Bool.false_eq_true, if_false]
        rw [show rest.filter (fun p : String × ChatFile => p.1 != k) =
              removeFile rest k from rfl, hrest]
        simp
      · have hmem' : id ∈ rest.map Prod.fst := by
          rcases List.mem_map.mp hmem with ⟨q, hq, hqe⟩
          rcases List.mem_cons.mp hq with rfl | hq'
          · exact absurd hqe hk
          · exact List.mem_map.mpr ⟨q, hq', hqe⟩
        unfold removeFile
        rw [List.filter_cons, show ((k, g).1 != id) = true from by simp [hk],
          if_pos rfl]
        simp only [List.length_cons]
        have hr := ih hnodup.2 hmem'
        unfold removeFile at hr
        omega

lemma removeFile_sub_keys {files : ChatDir} {id x : String}
    (h : x ∈ (removeFile files id).map Prod.fst) : x ∈ files.map Prod.fst :=
  ((List.filter_sublist _).map Prod.fst).subset h

lemma upsertFile_length_of_fresh {files : ChatDir} {id : String} (f : ChatFile)
    (h : id ∉ files.map Prod.fst) :
    (upsertFile files id f).length = files.length + 1 := by
  unfold upsertFile
  rw [List.length_append]
  have hself : files.filter (fun p => p.1 != id) = files := by
    apply List.filter_eq_self.mpr
    intro q hq
    have : q.1 ≠ id := fun he => h (he ▸ List.mem_map.mpr ⟨q, hq, rfl⟩)
    simpa using this
  rw [hself]
  rfl

lemma readChats_fst_length (now : Nat) : ∀ files : ChatDir,
    (readChats now files).1.length = files.length
  | [] => rfl
  | (id, f) :: rest => by
    cases f with
    | ok c =>
      show (c :: (readChats now rest).1).length = rest.length + 1
      simp [readChats_fst_length now rest]
    | corrupt =>
      show (repairChat id now :: (readChats now rest).1).length = rest.length + 1
      simp [readChats_fst_length now rest]

lemma readChats_of_allOk (now : Nat) : ∀ files : ChatDir,
    files.all fileOk = true → readChats now files = (valsOf files, files)
  | [], _ => rfl
  | (id, f) :: rest, h => by
    rw [List.all_cons, Bool.and_eq_true] at h
    cases f with
    | ok c =>
      have ih := readChats_of_allOk now rest h.2
      show (c :: (readChats now rest).1, (id, ChatFile.ok c) :: (readChats now rest).2) = _
      rw [ih]
      rfl
    | corrupt => exact absurd h.1 (by simp [fileOk])

lemma valsOf_length_of_allOk : ∀ {files : ChatDir},
    files.all fileOk = true → (valsOf files).length = files.length
  | [], _ => rfl
  | (id, f) :: rest, h => by
    rw [List.all_cons, Bool.and_eq_true] at h
    cases f with
    | ok c =>
      show (c :: valsOf rest).length = rest.length + 1
      rw [List.length_cons, valsOf_length_of_allOk h.2]
    | corrupt => exact absurd h.1 (by simp [fileOk])

lemma sortChatsDesc_length (cs : List ChatRec) :
    (sortChatsDesc cs).length = cs.length :=
  List.length_insertionSort _ cs

lemma mem_sortChatsDesc {cs : List ChatRec} {c : ChatRec} :
    c ∈ sortChatsDesc cs ↔ c ∈ cs :=
  (List.perm_insertionSort _ cs).mem_iff

lemma getChatsForUser_of_allOk {now : Nat} {files : ChatDir}
    (h : files.all fileOk = true) :
    getChatsForUser now files = (sortChatsDesc (valsOf files), files) := by
  unfold getChatsForUser
  rw [readChats_of_allOk now files h]

lemma getChatsForUser_fst_length (now : Nat) (files : ChatDir) :
    (getChatsForUser now files).1.length = files.length := by
  unfold getChatsForUser
  rw [sortChatsDesc_length, readChats_fst_length]

lemma oldestChat_le_best : ∀ (l : List ChatRec) (b : ChatRec),
    (oldestChat b l).created_at ≤ b.created_at
  | [], _ => le_refl _
  | c :: rest, b => by
    rw [oldestChat]
    by_cases h : c.created_at < b.created_at
    · rw [if_pos h]
      exact le_trans (oldestChat_le_best rest c) (le_of_lt h)
    · rw [if_neg h]
      exact oldestChat_le_best rest b

lemma oldestChat_mem : ∀ (l : List ChatRec) (b : ChatRec),
    oldestChat b l ∈ b :: l
  | [], b => by simp [oldestChat]
  | c :: rest, b => by
    rw [oldestChat]
    by_cases h : c.created_at < b.created_at
    · rw [if_pos h]
      rcases List.mem_cons.mp (oldestChat_mem rest c) with he | hm
      · rw [he]; simp
      · exact List.mem_cons_of_mem _ (List.mem_cons_of_mem _ hm)
    · rw [if_neg h]
      rcases List.mem_cons.mp (oldestChat_mem rest b) with he | hm
      · rw [he]; simp
      · exact List.mem_cons_of_mem _ (List.mem_cons_of_mem _ hm)

lemma oldestChat_le : ∀ (l : List ChatRec) (b : ChatRec),
    ∀ x ∈ b :: l, (oldestChat b l).created_at ≤ x.created_at
  | [], b, x, hx => by
    rcases List.mem_cons.mp hx with rfl | h
    · exact le_refl _
    · cases h
  | c :: rest, b, x, hx => by
    rw [oldestChat]
    rcases List.mem_cons.mp hx with rfl | hx'
    · by_cases h : c.created_at < x.created_at
      · rw [if_pos h]
        exact le_trans (oldestChat_le_best rest c) (le_of_lt h)
      · rw [if_neg h]
        exact oldestChat_le_best rest x
    · rcases List.mem_cons.mp hx' with rfl | hx''
      · by_cases h : x.created_at < b.created_at
        · rw [if_pos h]
          exact oldestChat_le_best rest x
        · rw [if_neg h]
          exact le_trans (oldestChat_le_best rest b) (le_of_not_lt h)
      · by_cases h : c.created_at < b.created_at
        · rw [if_pos h]
          exact oldestChat_le rest c x (List.mem_cons_of_mem _ hx'')
        · rw [if_neg h]
          exact oldestChat_le rest b x (List.mem_cons_of_mem _ hx'')

lemma chatId_mem_keys {files : ChatDir} (hwf : files.all fileOk = true)
    {c : ChatRec} (hc : c ∈ valsOf files) : c.chat_id ∈ files.map Prod.fst := by
  rcases List.mem_filterMap.mp hc with ⟨p, hp, hpc⟩
  have hok := List.all_eq_true.mp hwf p hp
  cases p with
  | mk id f =>
    cases f with
    | ok c' =>
      have hcc : c' = c := by simpa using hpc
      subst hcc
      have hid : c'.chat_id = id := by simpa [fileOk] using hok
      exact List.mem_map.mpr ⟨(id, .ok c'), hp, hid.symm⟩
    | corrupt => simp at hpc

lemma readChats_repairs (now : Nat) : ∀ (files : ChatDir) (cid : String),
    lookupFile files cid = some .corrupt →
    repairChat cid now ∈ (readChats now files).1 ∧
    lookupFile (readChats now files).2 cid = some (.ok (repairChat cid now))
  | [], cid, h => by simp [lookupFile] at h
  | (id, f) :: rest, cid, h => by
    rw [lookupFile] at h
    by_cases hk : id = cid
    · rw [if_pos hk] at h
      have hf : f = .corrupt := Option.some.inj h
      subst hf
      subst hk
      refine ⟨?_, ?_⟩
      · show repairChat id now ∈ repairChat id now :: (readChats now rest).1
        simp
      · show lookupFile ((id, ChatFile.ok (repairChat id now)) :: (readChats now rest).2) id =
          some (.ok (repairChat id now))
        rw [lookupFile, if_pos rfl]
    · rw [if_neg hk] at h
      have ih := readChats_repairs now rest cid h
      cases f with
      | ok c =>
        refine ⟨?_, ?_⟩
        · show repairChat cid now ∈ c :: (readChats now rest).1
          exact List.mem_cons_of_mem _ ih.1
        · show lookupFile ((id, ChatFile.ok c) :: (readChats now rest).2) cid = _
          rw [lookupFile, if_neg hk]
          exact ih.2
      | corrupt =>
        refine ⟨?_, ?_⟩
        · show repairChat cid now ∈ repairChat id now :: (readChats now rest).1
          exact List.mem_cons_of_mem _ ih.1
        · show lookupFile ((id, ChatFile.ok (repairChat id now)) :: (readChats now rest).2) cid = _
          rw [lookupFile, if_neg hk]
          exact ih.2

/-- C5: reading a chat whose stored JSON fails to parse — via `get_chat` or
via the user's chat listing — replaces the file in place with the minimal
placeholder (`title = "Recovered Chat"`, empty message list, fresh
timestamps), returns that placeholder, and persists it; a second read of the
same chat (at any later time) parses successfully, returns the same repaired
content, and performs no further repair (the store is unchanged). -/
theorem chat_read_repair_idempotent (files : ChatDir) (cid : String)
    (t1 t2 : Nat) (h : lookupFile files cid = some .corrupt) :
    (getChat t1 files cid).1 = some (repairChat cid t1) ∧
    (repairChat cid t1).title = "Recovered Chat" ∧
    (repairChat cid t1).messages = [] ∧
    (repairChat cid t1).created_at = t1 ∧
    (repairChat cid t1).updated_at = t1 ∧
    lookupFile (getChat t1 files cid).2 cid = some (.ok (repairChat cid t1)) ∧
    getChat t2 (getChat t1 files cid).2 cid =
      (some (repairChat cid t1), (getChat t1 files cid).2) ∧
    repairChat cid t1 ∈ (getChatsForUser t1 files).1 ∧
    lookupFile (getChatsForUser t1 files).2 cid = some (.ok (repairChat cid t1)) := by
  have hget : getChat t1 files cid =
      (some (repairChat cid t1),
       upsertFile files cid (.ok (repairChat cid t1))) := by
    unfold getChat
    rw [h]
  have hlook : lookupFile (upsertFile files cid (.ok (repairChat cid t1))) cid =
      some (.ok (repairChat cid t1)) := lookupFile_upsert _ _ _
  have hlist := readChats_repairs t1 files cid h
  refine ⟨by rw [hget], rfl, rfl, rfl, rfl, by rw [hget]; exact hlook, ?_, ?_, ?_⟩
  · rw [hget]
    unfold getChat
    rw [hlook]
  · unfold getChatsForUser
    exact mem_sortChatsDesc.mpr hlist.1
  · unfold getChatsForUser
    exact hlist.2

/-- Witness for C5 at a one-file store holding a corrupted chat `"c1"`. -/
theorem chat_read_repair_idempotent_witness :
    lookupFile [("c1", ChatFile.corrupt)] "c1" = some ChatFile.corrupt ∧
    ((getChat 5 [("c1", ChatFile.corrupt)] "c1").1 = some (repairChat "c1" 5) ∧
     (repairChat "c1" 5).title = "Recovered Chat" ∧
     (repairChat "c1" 5).messages = [] ∧
     (repairChat "c1" 5).created_at = 5 ∧
     (repairChat "c1" 5).updated_at = 5 ∧
     lookupFile (getChat 5 [("c1", ChatFile.corrupt)] "c1").2 "c1" =
       some (.ok (repairChat "c1" 5)) ∧
     getChat 9 (getChat 5 [("c1", ChatFile.corrupt)] "c1").2 "c1" =
       (some (repairChat "c1" 5), (getChat 5 [("c1", ChatFile.corrupt)] "c1").2) ∧
     repairChat "c1" 5 ∈ (getChatsForUser 5 [("c1", ChatFile.corrupt)]).1 ∧
     lookupFile (getChatsForUser 5 [("c1", ChatFile.corrupt)]).2 "c1" =
       some (.ok (repairChat "c1" 5))) :=
  ⟨rfl, chat_read_repair_idempotent [("c1", ChatFile.corrupt)] "c1" 5 9 rfl⟩

/-- C9: for an existing chat, the delete-message endpoint removes every
message whose id equals the given id (all matches, not only the first),
refreshes `updated_at`, and succeeds even when no message carries that id,
in which case the message list is returned unchanged. -/
theorem delete_message_semantics (now : Nat) (files : ChatDir)
    (cid mid : String) (c : ChatRec)
    (h : lookupFile files cid = some (.ok c)) :
    (apiDeleteMessage now files cid mid =
      .ok ({ c with messages := c.messages.filter (fun m => m.id != some mid),
                    updated_at := now },
           upsertFile files cid (.ok { c with
                    messages := c.messages.filter (fun m => m.id != some mid),
                    updated_at := now }))) ∧
    (∀ m ∈ c.messages.filter (fun m => m.id != some mid), m.id ≠ some mid) ∧
    ((∀ m ∈ c.messages, m.id ≠ some mid) →
      c.messages.filter (fun m => m.id != some mid) = c.messages) := by
  refine ⟨?_, ?_, ?_⟩
  · simp only [apiDeleteMessage, updateChat, getChat, h]
  · intro m hm
    exact bne_iff_ne.mp (List.mem_filter.mp hm).2
  · intro hnone
    apply List.filter_eq_self.mpr
    intro m hm
    simpa using hnone m hm

/-- Witness for C9: a chat with two messages named `"m1"` and one named
`"m2"`; deleting `"m1"` removes both matches and keeps `"m2"`. -/
theorem delete_message_semantics_witness :
    lookupFile
        [("c1", ChatFile.ok
          { chat_id := "c1", title := "t", user_id := "u",
            created_at := 1, updated_at := 1,
            messages := [{ id := some "m1", sender := "user", text := "a" },
                         { id := some "m2", sender := "system", text := "b" },
                         { id := some "m1", sender := "user", text := "c" }] })]
        "c1" =
      some (ChatFile.ok
          { chat_id := "c1", title := "t", user_id := "u",
            created_at := 1, updated_at := 1,
            messages := [{ id := some "m1", sender := "user", text := "a" },
                         { id := some "m2", sender := "system", text := "b" },
                         { id := some "m1", sender := "user", text := "c" }] }) ∧
    ((apiDeleteMessage 7
        [("c1", ChatFile.ok
          { chat_id := "c1", title := "t", user_id := "u",
            created_at := 1, updated_at := 1,
            messages := [{ id := some "m1", sender := "user", text := "a" },
                         { id := some "m2", sender := "system", text := "b" },
                         { id := some "m1", sender := "user", text := "c" }] })]
        "c1" "m1").toOption.map (fun r => r.1.messages) =
      some [{ id := some "m2", sender := "system", text := "b" }]) :=
  ⟨rfl, by
    have hmain := (delete_message_semantics 7
      [("c1", ChatFile.ok
        { chat_id := "c1", title := "t", user_id := "u",
          created_at := 1, updated_at := 1,
          messages := [{ id := some "m1", sender := "user", text := "a" },
                       { id := some "m2", sender := "system", text := "b" },
                       { id := some "m1", sender := "user", text := "c" }] })]
      "c1" "m1"
      { chat_id := "c1", title := "t", user_id := "u",
        created_at := 1, updated_at := 1,
        messages := [{ id := some "m1", sender := "user", text := "a" },
                     { id := some "m2", sender := "system", text := "b" },
                     { id := some "m1", sender := "user", text := "c" }] }
      rfl).1
    rw [hmain]
    rfl⟩

/-- A store of five well-formed chats with distinct ids and creation
times. -/
def chatFiles5 : ChatDir :=
  [("a", .ok { chat_id := "a", title := "t1", user_id := "u",
               created_at := 1, updated_at := 1, messages := [] }),
   ("b", .ok { chat_id := "b", title := "t2", user_id := "u",
               created_at := 2, updated_at := 2, messages := [] }),
   ("c", .ok { chat_id := "c", title := "t3", user_id := "u",
               created_at := 3, updated_at := 3, messages := [] }),
   ("d", .ok { chat_id := "d", title := "t4", user_id := "u",
               created_at := 4, updated_at := 4, messages := [] }),
   ("e", .ok { chat_id := "e", title := "t5", user_id := "u",
               created_at := 5, updated_at := 5, messages := [] })]

def newChat6 : ChatRec :=
  { chat_id := "f", title := "t6", user_id := "u",
    created_at := 0, updated_at := 0, messages := [] }

/-- C2 counterexample: for a user who already owns 5 chats, the HTTP
`create_chat` endpoint raises a capacity error and writes nothing — the
database-level eviction is never reached through the API, contradicting the
claim that creation succeeds with eviction and that no capacity error
reaches the caller. -/
theorem create_chat_api_rejects_at_capacity :
    apiCreateChat 10 chatFiles5 "f" "u" "t6" =
      .error "You have reached the maximum limit of 5 chats. Please delete a chat before creating a new one." := by
  rfl

/-- C2 (amended): at the database layer, `JSONDatabase.create_chat` for a
user with 5 well-formed chats deletes the single chat with the oldest
`created_at` before writing the new one — afterwards the new record is
present, the evicted id is gone, exactly 5 chats remain, and no error is
raised (the function is total); at the API layer, however, the `create_chat`
endpoint rejects the request with a capacity error whenever the user already
has 5 or more chats, so this eviction path is never reached through the HTTP
endpoint and the caller does receive a capacity error. -/
theorem create_chat_eviction_and_api_guard
    (now : Nat) (files : ChatDir) (newData : ChatRec)
    (hwf : files.all fileOk = true)
    (hnodup : (files.map Prod.fst).Nodup)
    (hlen : files.length = 5)
    (hfresh : newData.chat_id ∉ files.map Prod.fst) :
    ((dbCreateChat now files newData).2.length = 5 ∧
     lookupFile (dbCreateChat now files newData).2 newData.chat_id =
       some (.ok (dbCreateChat now files newData).1) ∧
     (∀ ev, oldestOf (getChatsForUser now files).1 = some ev →
        lookupFile (dbCreateChat now files newData).2 ev.chat_id = none ∧
        ∀ x ∈ (getChatsForUser now files).1, ev.created_at ≤ x.created_at)) ∧
    (∀ (g : ChatDir) (nid uid ttl : String), 5 ≤ g.length →
      ∃ msg, apiCreateChat now g nid uid ttl = .error msg) := by
  have hg := @getChatsForUser_of_allOk now files hwf
  have hcslen : (getChatsForUser now files).1.length = 5 := by
    rw [getChatsForUser_fst_length, hlen]
  obtain ⟨c0, rest0, hcs⟩ : ∃ c rest, (getChatsForUser now files).1 = c :: rest := by
    cases hx : (getChatsForUser now files).1 with
    | nil => rw [hx] at hcslen; simp at hcslen
    | cons a b => exact ⟨a, b, rfl⟩
  have hold : oldestOf (getChatsForUser now files).1 = some (oldestChat c0 rest0) := by
    rw [hcs]; rfl
  have hevmem : oldestChat c0 rest0 ∈ (getChatsForUser now files).1 := by
    rw [hcs]; exact oldestChat_mem rest0 c0
  have hevvals : oldestChat c0 rest0 ∈ valsOf files := by
    rw [hg] at hevmem
    exact mem_sortChatsDesc.mp hevmem
  have hevkey : (oldestChat c0 rest0).chat_id ∈ files.map Prod.fst :=
    chatId_mem_keys hwf hevvals
  obtain ⟨f0, hf0⟩ := lookupFile_isSome_of_mem hevkey
  have hslen : (sortChatsDesc (valsOf files)).length = 5 := by
    have hx := hcslen
    rw [hg] at hx
    exact hx
  have hold' : oldestOf (sortChatsDesc (valsOf files)) = some (oldestChat c0 rest0) := by
    have hx := hold
    rw [hg] at hx
    exact hx
  have hdb : dbCreateChat now files newData =
      ({ newData with created_at := now, updated_at := now },
       upsertFile (removeFile files (oldestChat c0 rest0).chat_id)
         newData.chat_id
         (.ok { newData with created_at := now, updated_at := now })) := by
    simp only [dbCreateChat, hg, hslen, hold', deleteChat, hf0]
    rw [if_pos (le_refl 5)]
  have hne : (oldestChat c0 rest0).chat_id ≠ newData.chat_id :=
    fun he => hfresh (he ▸ hevkey)
  refine ⟨⟨?_, ?_, ?_⟩, ?_⟩
  · rw [hdb]
    have hnidfresh : newData.chat_id ∉
        (removeFile files (oldestChat c0 rest0).chat_id).map Prod.fst :=
      fun hmem => hfresh (removeFile_sub_keys hmem)
    show (upsertFile _ _ _).length = 5
    rw [upsertFile_length_of_fresh _ hnidfresh]
    have hr := removeFile_length hnodup hevkey
    omega
  · rw [hdb]
    exact lookupFile_upsert _ _ _
  · intro ev hev
    have hevv : oldestChat c0 rest0 = ev := Option.some.inj (hold.symm.trans hev)
    subst hevv
    refine ⟨?_, ?_⟩
    · rw [hdb]
      show lookupFile (upsertFile _ _ _) _ = none
      rw [lookupFile_upsert_ne _ hne]
      exact lookupFile_removeFile _ _
    · intro x hx
      rw [hcs] at hx
      exact oldestChat_le rest0 c0 x hx
  · intro g nid uid ttl hge
    have hc : 5 ≤ (getChatsForUser now g).1.length := by
      rw [getChatsForUser_fst_length]; exact hge
    exact ⟨_, by unfold apiCreateChat; rw [if_pos hc]⟩

/-- Witness for C2 (amended) at the concrete five-chat store. -/
theorem create_chat_eviction_and_api_guard_witness :
    chatFiles5.all fileOk = true ∧
    (chatFiles5.map Prod.fst).Nodup ∧
    chatFiles5.length = 5 ∧
    newChat6.chat_id ∉ chatFiles5.map Prod.fst ∧
    (((dbCreateChat 10 chatFiles5 newChat6).2.length = 5 ∧
      lookupFile (dbCreateChat 10 chatFiles5 newChat6).2 newChat6.chat_id =
        some (.ok (dbCreateChat 10 chatFiles5 newChat6).1) ∧
      (∀ ev, oldestOf (getChatsForUser 10 chatFiles5).1 = some ev →
        lookupFile (dbCreateChat 10 chatFiles5 newChat6).2 ev.chat_id = none ∧
        ∀ x ∈ (getChatsForUser 10 chatFiles5).1, ev.created_at ≤ x.created_at)) ∧
     (∀ (g : ChatDir) (nid uid ttl : String), 5 ≤ g.length →
       ∃ msg, apiCreateChat 10 g nid uid ttl = .error msg)) :=
  ⟨by decide, by decide, by decide, by decide,
   create_chat_eviction_and_api_guard 10 chatFiles5 newChat6
     (by decide) (by decide) (by decide) (by decide)⟩

/-! ### Document processing (src/backend/app/rag_engine/document_processor.py) -/

structure ChunkMeta where
  source : String
  page : Option Nat := none
  content_type : Option String := none
  row_range : Option String := none
  row_count : Option Nat := none
  column_count : Option Nat := none
  total_rows : Option Nat := none
deriving DecidableEq

structure DocumentChunk where
  text : String
  metadata : ChunkMeta
deriving DecidableEq

/-- `DocumentProcessor.__init__` defaults (lines 20-27). -/
def defaultChunkSize : Nat := 1000

def defaultChunkOverlap : Nat := 200

/-- The largest end position, within the first `chunkSize` characters, at
which `sep` occurs as a suffix — a candidate split point. -/
def lastSepEnd (sep : List Char) (w : List Char) : Option Nat :=
  ((List.range (w.length + 1)).filter (fun i => sep.isSuffixOf (w.take i))).getLast?

/-- Modelled from the spec: the split-point choice of the Chunker contract
`Split(text, chunkSize, overlap)` (spec section 4.1).  The concrete splitter
in the source is the external langchain `RecursiveCharacterTextSplitter`
(configured with separators `["\n\n", "\n", ". ", " ", ""]`), which is not
part of this repository.  Following the spec's words, the cut prefers, in
priority order, paragraph breaks, line breaks, sentence-ending punctuation,
spaces, and falls back to a hard character cut at `chunkSize`. -/
def cutPoint (chunkSize : Nat) (text : List Char) : Nat :=
  match lastSepEnd ['\n', '\n'] (text.take chunkSize) with
  | some i => i
  | none =>
    match lastSepEnd ['\n'] (text.take chunkSize) with
    | some i => i
    | none =>
      match lastSepEnd ['.', ' '] (text.take chunkSize) with
      | some i => i
      | none =>
        match lastSepEnd [' '] (text.take chunkSize) with
        | some i => i
        | none => chunkSize

/-- Modelled from the spec: `Split(text, chunkSize, overlap)` (spec section
4.1) — the Chunker contract implemented in the source by the external
langchain `RecursiveCharacterTextSplitter`, not part of this repository.
Each emitted chunk has length at most `chunkSize`; each chunk after the
first starts up to `overlap` characters before the end of the previous
one. -/
def splitChunks (chunkSize overlap : Nat) (text : List Char) : List (List Char) :=
  if _h : text.length ≤ chunkSize then
    if text.isEmpty then [] else [text]
  else
    let cut := max 1 (cutPoint chunkSize text)
    let adv := cut - min overlap (cut - 1)
    text.take cut :: splitChunks chunkSize overlap (text.drop adv)
  termination_by text.length
  decreasing_by
    simp only [List.length_drop]
    have hc : 1 ≤ max 1 (cutPoint chunkSize text) := le_max_left _ _
    have hm : min overlap (max 1 (cutPoint chunkSize text) - 1) ≤
        max 1 (cutPoint chunkSize text) - 1 := min_le_right _ _
    omega

/-- The spec-modelled splitter lifted to `String`. -/
def splitTextS (chunkSize overlap : Nat) (s : String) : List String :=
  (splitChunks chunkSize overlap s.data).map (fun l => String.mk l)

/-- Python's `str.strip()`: whitespace removed from both ends (defined over
the character list so that it evaluates by reduction). -/
def pyStrip (s : String) : String :=
  String.mk (((s.data.dropWhile Char.isWhitespace).reverse.dropWhile
    Char.isWhitespace).reverse)

/-- `DocumentProcessor._process_pdf` (lines 42-66): pages whose extracted
text is empty after stripping produce no chunks; every chunk of a page
carries `{"page": page_num + 1, "source": file_path}`.  The text splitter is
the `split` parameter (the external langchain splitter in the source). -/
def processPdf (split : String → List String) (filePath : String)
    (pages : List String) : List DocumentChunk :=
  pages.enum.flatMap (fun pt =>
    if pyStrip pt.2 = "" then []
    else (split pt.2).map (fun t =>
      { text := t, metadata := { source := filePath, page := some (pt.1 + 1) } }))

/-- `DocumentProcessor._process_docx` (lines 68-96): nonempty paragraphs are
joined with `"\n"` and the joined text split; chunks carry only the
source path. -/
def processDocx (split : String → List String) (filePath : String)
    (paragraphs : List String) : List DocumentChunk :=
  (split (String.intercalate "\n" (paragraphs.filter (fun p => pyStrip p != "")))).map
    (fun t => { text := t, metadata := { source := filePath } })

/-- `DocumentProcessor._process_text` (lines 98-120). -/
def processText (split : String → List String) (filePath : String)
    (content : String) : List DocumentChunk :=
  (split content).map (fun t => { text := t, metadata := { source := filePath } })

/-- Lines 146-156 of `_process_csv`: the header extraction, after the
external `csv` module has produced `rows` and the sniffer `hasHeader`. -/
def csvHeaders (hasHeader : Bool) (rows : List (List String)) : List String :=
  if hasHeader ∧ rows.length > 0 then rows.headD []
  else if rows.length > 0 then
    (List.range (rows.headD []).length).map (fun i => "Column" ++ toString (i + 1))
  else []

/-- Lines 146-156 of `_process_csv`: the data-row extraction. -/
def csvDataRows (hasHeader : Bool) (rows : List (List String)) :
    List (List String) :=
  if hasHeader ∧ rows.length > 0 then rows.tail else rows

/-- One sample row of the summary (lines 172-179): cells beyond the header
count are rendered as `ColumnN: cell`. -/
def renderPairsAll (headers : List String) (row : List String) : List String :=
  row.enum.map (fun jc =>
    if jc.1 < headers.length then headers.getD jc.1 "" ++ ": " ++ jc.2
    else "Column" ++ toString (jc.1 + 1) ++ ": " ++ jc.2)

/-- One data row of a batch (lines 204-209): cells beyond the header count
are dropped. -/
def renderPairsHeaders (headers : List String) (row : List String) : List String :=
  row.enum.filterMap (fun jc =>
    if jc.1 < headers.length then some (headers.getD jc.1 "" ++ ": " ++ jc.2)
    else none)

/-- The header part of the summary text (lines 162-166). -/
def csvSummaryHead (basename : String) (headers : List String)
    (dataRows : List (List String)) : String :=
  "CSV File: " ++ basename ++ "\n" ++
  "Total rows: " ++ toString dataRows.length ++
    ", Total columns: " ++ toString headers.length ++ "\n\n" ++
  "Column Headers:\n" ++
  String.join (headers.map (fun h => "- " ++ h ++ "\n"))

/-- One sample line of the summary (lines 171-179). -/
def csvSampleRow (headers : List String) (ir : Nat × List String) : String :=
  "Row " ++ toString (ir.1 + 1) ++ ": " ++
  String.intercalate ", " (renderPairsAll headers ir.2) ++ "\n"

/-- The summary text of lines 162-179. -/
def csvSummaryText (basename : String) (headers : List String)
    (dataRows : List (List String)) : String :=
  csvSummaryHead basename headers dataRows ++
  (if dataRows.isEmpty then "" else
    "\nSample Data (first 5 rows):\n" ++
    String.join ((dataRows.take 5).enum.map (csvSampleRow headers)))

/-- The summary chunk of lines 182-190. -/
def csvSummaryChunk (basename : String) (headers : List String)
    (dataRows : List (List String)) : DocumentChunk :=
  { text := csvSummaryText basename headers dataRows,
    metadata := { source := basename,
                  content_type := some "csv_summary",
                  row_count := some dataRows.length,
                  column_count := some headers.length } }

/-- The text of one 50-row batch (lines 199-210), covering data rows
`start+1 .. stop`. -/
def csvBatchText (headers : List String) (dataRows : List (List String))
    (start stop : Nat) : String :=
  "CSV Data (Rows " ++ toString (start + 1) ++ " to " ++ toString stop ++
    "):\n\n" ++
  String.join (((dataRows.drop start).take (stop - start)).enum.map (fun ir =>
    "Row " ++ toString (start + ir.1 + 1) ++ ": " ++
    String.intercalate ", " (renderPairsHeaders headers ir.2) ++ "\n"))

/-- `range(0, len(data_rows), 50)` of line 194. -/
def csvBatchStarts (n : Nat) : List Nat :=
  (List.range ((n + 49) / 50)).map (fun b => b * 50)

/-- The row-batch chunks of lines 192-221. -/
def csvBatchChunks (basename : String) (headers : List String)
    (dataRows : List (List String)) : List DocumentChunk :=
  (csvBatchStarts dataRows.length).map (fun start =>
    { text := csvBatchText headers dataRows start (min (start + 50) dataRows.length),
      metadata := { source := basename,
                    content_type := some "csv_data",
                    row_range := some (toString (start + 1) ++ "-" ++
                      toString (min (start + 50) dataRows.length)),
                    total_rows := some dataRows.length } })

/-- `DocumentProcessor._process_csv` (lines 122-225), after the external csv
module has parsed the file into `rows` with sniffed `hasHeader`: one summary
chunk followed by the 50-row batch chunks. -/
def processCsv (basename : String) (hasHeader : Bool)
    (rows : List (List String)) : List DocumentChunk :=
  csvSummaryChunk basename (csvHeaders hasHeader rows) (csvDataRows hasHeader rows) ::
  csvBatchChunks basename (csvHeaders hasHeader rows) (csvDataRows hasHeader rows)

/-- The parsed content of an uploaded file, one constructor per supported
`file_type`; the external extraction libraries (fitz, docx, csv) deliver the
payloads. -/
inductive FileInput where
  | pdf (pages : List String)
  | docx (paragraphs : List String)
  | txt (content : String)
  | csv (hasHeader : Bool) (rows : List (List String))
  | other (fileType : String)

/-- `DocumentProcessor.process_file` (lines 29-40); for CSV the source tags
chunks with `os.path.basename(file_path)`, so `filePath` stands for the
basename there. -/
def processFile (split : String → List String) (filePath : String) :
    FileInput → Except String (List DocumentChunk)
  | .pdf pages => .ok (processPdf split filePath pages)
  | .docx paras => .ok (processDocx split filePath paras)
  | .txt content => .ok (processText split filePath content)
  | .csv hasHeader rows => .ok (processCsv filePath hasHeader rows)
  | .other ft => .error ("Unsupported file type: " ++ ft)

/-! ### Vector store search (src/backend/app/rag_engine/document_store.py,
search_chunks, lines 49-68) -/

structure StoredChunk where
  chunk_id : String
  doc_id : String
  text : String
deriving DecidableEq

/-- `collection.query` of the external vector index: restrict to the
`where`-filtered candidates, rank by the given distance (ascending), return
at most `n_results`. -/
def chromaQuery (distTo : StoredChunk → ℚ) (collection : List StoredChunk)
    (whereFilter : Option (List String)) (nResults : Nat) : List StoredChunk :=
  (match whereFilter with
   | none => collection
   | some ids => collection.filter (fun c => ids.contains c.doc_id)).insertionSort
    (fun a b => distTo a ≤ distTo b) |>.take nResults

/-- `DocumentStore.search_chunks`: `where_filter` stays `None` both when
`filter_doc_ids` is `None` and when it is the empty list, since
`if filter_doc_ids:` is Python truthiness. -/
def searchChunks (distTo : StoredChunk → ℚ) (collection : List StoredChunk)
    (filterDocIds : Option (List String)) (maxResults : Nat) :
    List StoredChunk :=
  chromaQuery distTo collection
    (match filterDocIds with
     | some ids => if ids.isEmpty then none else some ids
     | none => none)
    maxResults

/-- C8: passing `filter_doc_ids` as a present-but-empty list applies no
document filter at all — the search behaves exactly as if no filter had been
passed, over the user's entire namespace. -/
theorem empty_filter_searches_whole_namespace
    (distTo : StoredChunk → ℚ) (collection : List StoredChunk) (k : Nat) :
    searchChunks distTo collection (some []) k =
      searchChunks distTo collection none k := rfl

lemma mem_of_getLast?_eq {α : Type} {l : List α} {a : α}
    (h : l.getLast? = some a) : a ∈ l := by
  rcases List.mem_getLast?_eq_getLast (Option.mem_def.mpr h) with ⟨hne, he⟩
  rw [he]
  exact List.getLast_mem hne

lemma lastSepEnd_le {sep w : List Char} {i : Nat}
    (h : lastSepEnd sep w = some i) : i ≤ w.length := by
  have hmem := mem_of_getLast?_eq h
  have h1 := (List.mem_filter.mp hmem).1
  have h2 := List.mem_range.mp h1
  omega

lemma cutPoint_le (chunkSize : Nat) (text : List Char) :
    cutPoint chunkSize text ≤ chunkSize := by
  have hw : (text.take chunkSize).length ≤ chunkSize := by
    rw [List.length_take]
    exact min_le_left _ _
  unfold cutPoint
  cases h1 : lastSepEnd ['\n', '\n'] (text.take chunkSize) with
  | some i => exact le_trans (lastSepEnd_le h1) hw
  | none =>
    cases h2 : lastSepEnd ['\n'] (text.take chunkSize) with
    | some i => exact le_trans (lastSepEnd_le h2) hw
    | none =>
      cases h3 : lastSepEnd ['.', ' '] (text.take chunkSize) with
      | some i => exact le_trans (lastSepEnd_le h3) hw
      | none =>
        cases h4 : lastSepEnd [' '] (text.take chunkSize) with
        | some i => exact le_trans (lastSepEnd_le h4) hw
        | none => exact le_refl _

lemma splitChunks_le {chunkSize overlap : Nat} (hcs : 1 ≤ chunkSize) :
    ∀ (n : Nat) (text : List Char), text.length ≤ n →
      ∀ ch ∈ splitChunks chunkSize overlap text, ch.length ≤ chunkSize := by
  intro n
  induction n with
  | zero =>
    intro text ht ch hch
    have hnil : text = [] := List.length_eq_zero.mp (Nat.le_zero.mp ht)
    subst hnil
    simp [splitChunks] at hch
  | succ n ih =>
    intro text ht ch hch
    rw [splitChunks] at hch
    by_cases hle : text.length ≤ chunkSize
    · rw [dif_pos hle] at hch
      by_cases hemp : text.isEmpty
      · rw [if_pos hemp] at hch
        simp at hch
      · rw [if_neg hemp] at hch
        rcases List.mem_singleton.mp hch with rfl
        exact hle
    · rw [dif_neg hle] at hch
      rcases List.mem_cons.mp hch with rfl | hrec
      · rw [List.length_take]
        exact le_trans (min_le_left _ _) (max_le hcs (cutPoint_le _ _))
      · refine ih _ ?_ ch hrec
        rw [List.length_drop]
        have hc : 1 ≤ max 1 (cutPoint chunkSize text) := le_max_left _ _
        have hm : min overlap (max 1 (cutPoint chunkSize text) - 1) ≤
            max 1 (cutPoint chunkSize text) - 1 := min_le_right _ _
        omega

lemma splitTextS_le {chunkSize overlap : Nat} (hcs : 1 ≤ chunkSize)
    (s : String) : ∀ t ∈ splitTextS chunkSize overlap s, t.length ≤ chunkSize := by
  intro t ht
  rcases List.mem_map.mp ht with ⟨l, hl, rfl⟩
  exact splitChunks_le hcs s.data.length s.data le_rfl l hl

def bigCell : String := String.mk (List.replicate 2000 'a')

/-- C3 counterexample: a CSV whose single data cell holds 2000 characters
makes `process_file` emit a summary chunk far longer than the configured
chunk size (default 1000) — the CSV summary and row-batch chunks are built
directly from the row data and bypass the text splitter entirely. -/
theorem csv_chunk_exceeds_chunk_size :
    processFile (fun t => [t]) "data.csv" (FileInput.csv true [["h"], [bigCell]]) =
      .ok (processCsv "data.csv" true [["h"], [bigCell]]) ∧
    defaultChunkSize <
      ((processCsv "data.csv" true [["h"], [bigCell]]).headD
        { text := "", metadata := { source := "" } }).text.length := by
  refine ⟨rfl, ?_⟩
  show defaultChunkSize < (csvSummaryText "data.csv" ["h"] [[bigCell]]).length
  have hlenBig : bigCell.length = 2000 := by
    show (List.replicate 2000 'a').length = 2000
    rw [List.length_replicate]
  have hrow : csvSampleRow ["h"] (0, [bigCell]) =
      "Row " ++ toString (0 + 1) ++ ": " ++ ("h" ++ ": " ++ bigCell) ++ "\n" := rfl
  have hjoin : String.join ((([[bigCell]] : List (List String)).take 5).enum.map
      (csvSampleRow ["h"])) = csvSampleRow ["h"] (0, [bigCell]) := rfl
  have hne : ¬ (([[bigCell]] : List (List String)).isEmpty = true) := by decide
  have htotal : (csvSummaryText "data.csv" ["h"] [[bigCell]]).length =
      (csvSummaryHead "data.csv" ["h"] [[bigCell]]).length +
      (("\nSample Data (first 5 rows):\n").length +
        (csvSampleRow ["h"] (0, [bigCell])).length) := by
    unfold csvSummaryText
    rw [if_neg hne, hjoin, String.length_append, String.length_append]
  have hrowlen : 2000 ≤ (csvSampleRow ["h"] (0, [bigCell])).length := by
    rw [hrow]
    simp only [String.length_append, hlenBig]
    omega
  rw [htotal]
  have hd : defaultChunkSize = 1000 := rfl
  omega

/-- C3 (amended): every chunk produced through the text splitter — the PDF,
DOCX and TXT paths of `process_file` — has text length at most the
configured chunk size (for any positive chunk size); the CSV summary and
row-batch chunks are built directly from the row data without the splitter
and are not subject to this bound. -/
theorem splitter_chunks_bounded (chunkSize overlap : Nat) (hcs : 1 ≤ chunkSize)
    (filePath : String) (pages paras : List String) (content : String) :
    (∀ chs, processFile (splitTextS chunkSize overlap) filePath (.pdf pages) =
        .ok chs → ∀ ch ∈ chs, ch.text.length ≤ chunkSize) ∧
    (∀ chs, processFile (splitTextS chunkSize overlap) filePath (.docx paras) =
        .ok chs → ∀ ch ∈ chs, ch.text.length ≤ chunkSize) ∧
    (∀ chs, processFile (splitTextS chunkSize overlap) filePath (.txt content) =
        .ok chs → ∀ ch ∈ chs, ch.text.length ≤ chunkSize) := by
  refine ⟨?_, ?_, ?_⟩
  · intro chs hchs ch hch
    have hc : chs = processPdf (splitTextS chunkSize overlap) filePath pages :=
      (Except.ok.inj hchs).symm
    subst hc
    rcases List.mem_flatMap.mp hch with ⟨pt, _hpt, hin⟩
    by_cases hb : pyStrip pt.2 = ""
    · rw [if_pos hb] at hin
      simp at hin
    · rw [if_neg hb] at hin
      rcases List.mem_map.mp hin with ⟨t, htm, rfl⟩
      exact splitTextS_le hcs _ t htm
  · intro chs hchs ch hch
    have hc : chs = processDocx (splitTextS chunkSize overlap) filePath paras :=
      (Except.ok.inj hchs).symm
    subst hc
    rcases List.mem_map.mp hch with ⟨t, htm, rfl⟩
    exact splitTextS_le hcs _ t htm
  · intro chs hchs ch hch
    have hc : chs = processText (splitTextS chunkSize overlap) filePath content :=
      (Except.ok.inj hchs).symm
    subst hc
    rcases List.mem_map.mp hch with ⟨t, htm, rfl⟩
    exact splitTextS_le hcs _ t htm

/-- Witness for C3 (amended) at the default chunk size and overlap. -/
theorem splitter_chunks_bounded_witness :
    1 ≤ defaultChunkSize ∧
    ((∀ chs, processFile (splitTextS defaultChunkSize defaultChunkOverlap) "f"
        (.pdf ["hello", " "]) = .ok chs →
        ∀ ch ∈ chs, ch.text.length ≤ defaultChunkSize) ∧
     (∀ chs, processFile (splitTextS defaultChunkSize defaultChunkOverlap) "f"
        (.docx ["p"]) = .ok chs →
        ∀ ch ∈ chs, ch.text.length ≤ defaultChunkSize) ∧
     (∀ chs, processFile (splitTextS defaultChunkSize defaultChunkOverlap) "f"
        (.txt "c") = .ok chs →
        ∀ ch ∈ chs, ch.text.length ≤ defaultChunkSize)) :=
  ⟨by decide,
   splitter_chunks_bounded defaultChunkSize defaultChunkOverlap (by decide)
     "f" ["hello", " "] ["p"] "c"⟩

def csvRows121 : List (List String) := ["h"] :: List.replicate 120 ["v"]

set_option maxRecDepth 4000 in
/-- C7: for every parsed CSV with R data rows, `process_file` returns
exactly one summary chunk first — tagged `csv_summary` and carrying the row
and column counts, its text rendered with the header list and the first 5
rows as `header: value` pairs by `csvSummaryText` — followed by
`ceil(R/50)` row-batch chunks in row order, batch k covering the 50
consecutive rows `50k+1 .. min(50k+50, R)` (a smaller final batch) as
recorded in its `row_range` tag; for R = 120 this yields 1 summary chunk
plus 3 batches covering rows 1-50, 51-100, 101-120. -/
theorem csv_summary_and_batches (basename : String) (hasHeader : Bool)
    (rows : List (List String)) :
    (processCsv basename hasHeader rows).length =
      1 + ((csvDataRows hasHeader rows).length + 49) / 50 ∧
    (processCsv basename hasHeader rows).head? =
      some (csvSummaryChunk basename (csvHeaders hasHeader rows)
        (csvDataRows hasHeader rows)) ∧
    (csvSummaryChunk basename (csvHeaders hasHeader rows)
        (csvDataRows hasHeader rows)).metadata.content_type =
      some "csv_summary" ∧
    (csvSummaryChunk basename (csvHeaders hasHeader rows)
        (csvDataRows hasHeader rows)).metadata.row_count =
      some (csvDataRows hasHeader rows).length ∧
    (csvSummaryChunk basename (csvHeaders hasHeader rows)
        (csvDataRows hasHeader rows)).metadata.column_count =
      some (csvHeaders hasHeader rows).length ∧
    ((processCsv basename hasHeader rows).drop 1).map
        (fun ch => ch.metadata.content_type) =
      (csvBatchStarts (csvDataRows hasHeader rows).length).map
        (fun _ => some "csv_data") ∧
    ((processCsv basename hasHeader rows).drop 1).map
        (fun ch => ch.metadata.row_range) =
      (csvBatchStarts (csvDataRows hasHeader rows).length).map
        (fun start => some (toString (start + 1) ++ "-" ++
          toString (min (start + 50) (csvDataRows hasHeader rows).length))) ∧
    ((processCsv basename hasHeader rows).drop 1).map (fun ch => ch.text) =
      (csvBatchStarts (csvDataRows hasHeader rows).length).map
        (fun start => csvBatchText (csvHeaders hasHeader rows)
          (csvDataRows hasHeader rows) start
          (min (start + 50) (csvDataRows hasHeader rows).length)) ∧
    (processCsv "f.csv" true csvRows121).length = 4 ∧
    ((processCsv "f.csv" true csvRows121).drop 1).map
        (fun ch => ch.metadata.row_range) =
      [some "1-50", some "51-100", some "101-120"] := by
  refine ⟨?_, rfl, rfl, rfl, rfl, ?_, ?_, ?_, ?_, ?_⟩
  · simp [processCsv, csvBatchChunks, csvBatchStarts]
    omega
  · show (csvBatchChunks basename _ _).map _ = _
    unfold csvBatchChunks
    rw [List.map_map]
    rfl
  · show (csvBatchChunks basename _ _).map _ = _
    unfold csvBatchChunks
    rw [List.map_map]
    rfl
  · show (csvBatchChunks basename _ _).map _ = _
    unfold csvBatchChunks
    rw [List.map_map]
    rfl
  · decide
  · decide

/-! ### Ingestion pipeline (src/backend/app/api/documents.py,
process_document, lines 45-98) -/

structure DocRecord where
  doc_id : String
  status : String
  error : Option String := none
  num_pages : Option Nat := none
deriving DecidableEq

/-- The results of the external steps of one background run: the
extractor/chunker (`process_file`), the per-chunk embedder, the vector-store
insert, and the separate fitz page count (`none` when `fitz.open` raised and
the `except: pass` swallowed it). -/
structure IngestEnv where
  extract : Except String (List DocumentChunk)
  embed : Nat → Except String (List ℚ)
  index : Nat → Except String Unit
  pageCount : Option Nat

/-- The vector store as chunk-id/text pairs, in insertion order. -/
abbrev VecStore := List (String × String)

/-- Line 82: `f"{doc_id}_chunk_{i}"`. -/
def chunkId (docId : String) (i : Nat) : String :=
  docId ++ "_chunk_" ++ toString i

/-- The embed-and-index loop of lines 75-90: chunks are embedded and stored
one at a time; on the first failure the loop stops, leaving the chunks
already added in the store (they are not rolled back). -/
def ingestLoop (env : IngestEnv) (docId : String) :
    Nat → List DocumentChunk → VecStore → VecStore × Option String
  | _, [], store => (store, none)
  | i, c :: rest, store =>
    match env.embed i with
    | .error e => (store, some e)
    | .ok _ =>
      match env.index i with
      | .error e => (store, some e)
      | .ok _ =>
        ingestLoop env docId (i + 1) rest (store ++ [(chunkId docId i, c.text)])

/-- Lines 59-72: `num_pages` is computed independently by re-opening the
PDF, and written to the record only when truthy (`if num_pages:`), i.e. only
when it is present and nonzero. -/
def applyNumPages (fileType : String) (pageCount : Option Nat)
    (d : DocRecord) : DocRecord :=
  if fileType = "pdf" then
    match pageCount with
    | some n => if n ≠ 0 then { d with num_pages := some n } else d
    | none => d
  else d

/-- `process_document` (lines 45-98): the whole body runs under
`try/except`, so no exception propagates to the uploader; any failure is
recorded on the document as `status="error"` with the exception message, and
a fully successful run ends with `status="processed"`. -/
def processDocument (env : IngestEnv) (fileType : String)
    (doc : Option DocRecord) (store : VecStore) :
    Option DocRecord × VecStore :=
  match doc with
  | none => (none, store)
  | some d =>
    match env.extract with
    | .error e =>
        (some { d with status := "error", error := some e }, store)
    | .ok chunks =>
      let d2 := applyNumPages fileType env.pageCount { d with status := "processing" }
      let r := ingestLoop env d.doc_id 0 chunks store
      match r.2 with
      | some e => (some { d2 with status := "error", error := some e }, r.1)
      | none => (some { d2 with status := "processed" }, r.1)

/-- The vector-store entries produced by indexing `chunks` starting at chunk
counter `i`. -/
def storedChunks (docId : String) (i : Nat) : List DocumentChunk → VecStore
  | [] => []
  | c :: rest => (chunkId docId i, c.text) :: storedChunks docId (i + 1) rest

lemma ingestLoop_all_ok (env : IngestEnv) (docId : String) :
    ∀ (chunks : List DocumentChunk) (i : Nat) (store : VecStore),
      (∀ j, j < chunks.length →
        (∃ v, env.embed (i + j) = .ok v) ∧ env.index (i + j) = .ok ()) →
      ingestLoop env docId i chunks store =
        (store ++ storedChunks docId i chunks, none)
  | [], i, store, _ => by simp [ingestLoop, storedChunks]
  | c :: rest, i, store, h => by
    obtain ⟨⟨v, hv⟩, hix⟩ := h 0 (by simp)
    rw [Nat.add_zero] at hv hix
    rw [ingestLoop, hv, hix]
    have hshift : ∀ j, j < rest.length →
        (∃ w, env.embed (i + 1 + j) = .ok w) ∧ env.index (i + 1 + j) = .ok () := by
      intro j hj
      have := h (j + 1) (by simpa using Nat.succ_lt_succ hj)
      rwa [show i + (j + 1) = i + 1 + j by omega] at this
    rw [ingestLoop_all_ok env docId rest (i + 1) _ hshift]
    rw [storedChunks, List.append_assoc, List.singleton_append]

lemma ingestLoop_err (env : IngestEnv) (docId : String) :
    ∀ (k : Nat) (chunks : List DocumentChunk) (i : Nat) (store : VecStore)
      (e : String),
      k < chunks.length →
      (∀ j, j < k → (∃ v, env.embed (i + j) = .ok v) ∧ env.index (i + j) = .ok ()) →
      (env.embed (i + k) = .error e ∨
        ((∃ v, env.embed (i + k) = .ok v) ∧ env.index (i + k) = .error e)) →
      ingestLoop env docId i chunks store =
        (store ++ storedChunks docId i (chunks.take k), some e)
  | 0, chunks, i, store, e, hk, _, hfail => by
    cases chunks with
    | nil => simp at hk
    | cons c rest =>
      rw [Nat.add_zero] at hfail
      rcases hfail with he | ⟨⟨v, hv⟩, hix⟩
      · rw [ingestLoop, he]
        simp [storedChunks]
      · rw [ingestLoop, hv, hix]
        simp [storedChunks]
  | k + 1, chunks, i, store, e, hk, hok, hfail => by
    cases chunks with
    | nil => simp at hk
    | cons c rest =>
      obtain ⟨⟨v, hv⟩, hix⟩ := hok 0 (by simp)
      rw [Nat.add_zero] at hv hix
      rw [ingestLoop, hv, hix]
      have hshift : ∀ j, j < k →
          (∃ w, env.embed (i + 1 + j) = .ok w) ∧ env.index (i + 1 + j) = .ok () := by
        intro j hj
        have := hok (j + 1) (by omega)
        rwa [show i + (j + 1) = i + 1 + j by omega] at this
      have hfail' : env.embed (i + 1 + k) = .error e ∨
          ((∃ v, env.embed (i + 1 + k) = .ok v) ∧ env.index (i + 1 + k) = .error e) := by
        rwa [show i + (k + 1) = i + 1 + k by omega] at hfail
      rw [ingestLoop_err env docId k rest (i + 1) _ e (by simpa using Nat.lt_of_succ_lt_succ hk)
        hshift hfail']
      rw [List.take_succ_cons, storedChunks, List.append_assoc,
        List.singleton_append]

/-- C6: a background processing run never propagates an exception to the
uploader (`processDocument` is total); if extraction/chunking fails the
document is marked `status="error"` with the exception message and nothing
is indexed; if embedding or indexing fails at chunk k, the document is
marked `status="error"` with that message and the k chunks indexed before
the failure are left in the vector store (not rolled back); if no step
fails, the run ends with `status="processed"` and all chunks indexed. -/
theorem ingestion_error_and_success (env : IngestEnv) (fileType : String)
    (d : DocRecord) (store : VecStore) :
    (∀ e, env.extract = .error e →
      processDocument env fileType (some d) store =
        (some { d with status := "error", error := some e }, store)) ∧
    (∀ chunks k e, env.extract = .ok chunks → k < chunks.length →
      (∀ j, j < k → (∃ v, env.embed j = .ok v) ∧ env.index j = .ok ()) →
      (env.embed k = .error e ∨
        ((∃ v, env.embed k = .ok v) ∧ env.index k = .error e)) →
      ∃ d2 : DocRecord, processDocument env fileType (some d) store =
          (some { d2 with status := "error", error := some e },
           store ++ storedChunks d.doc_id 0 (chunks.take k))) ∧
    (∀ chunks, env.extract = .ok chunks →
      (∀ j, j < chunks.length →
        (∃ v, env.embed j = .ok v) ∧ env.index j = .ok ()) →
      ∃ d2 : DocRecord, processDocument env fileType (some d) store =
          (some { d2 with status := "processed" },
           store ++ storedChunks d.doc_id 0 chunks)) := by
  refine ⟨?_, ?_, ?_⟩
  · intro e hex
    simp only [processDocument, hex]
  · intro chunks k e hex hk hok hfail
    refine ⟨applyNumPages fileType env.pageCount { d with status := "processing" }, ?_⟩
    have hok0 : ∀ j, j < k →
        (∃ v, env.embed (0 + j) = .ok v) ∧ env.index (0 + j) = .ok () := by
      intro j hj
      rw [Nat.zero_add]
      exact hok j hj
    have hfail0 : env.embed (0 + k) = .error e ∨
        ((∃ v, env.embed (0 + k) = .ok v) ∧ env.index (0 + k) = .error e) := by
      rw [Nat.zero_add]
      exact hfail
    have hloop := ingestLoop_err env d.doc_id k chunks 0 store e hk hok0 hfail0
    simp only [processDocument, hex, hloop]
  · intro chunks hex hok
    refine ⟨applyNumPages fileType env.pageCount { d with status := "processing" }, ?_⟩
    have hok0 : ∀ j, j < chunks.length →
        (∃ v, env.embed (0 + j) = .ok v) ∧ env.index (0 + j) = .ok () := by
      intro j hj
      rw [Nat.zero_add]
      exact hok j hj
    have hloop := ingestLoop_all_ok env d.doc_id chunks 0 store hok0
    simp only [processDocument, hex, hloop]

def chunksW : List DocumentChunk :=
  [{ text := "alpha", metadata := { source := "f" } },
   { text := "beta", metadata := { source := "f" } },
   { text := "gamma", metadata := { source := "f" } }]

def envW : IngestEnv :=
  { extract := .ok chunksW,
    embed := fun i => if i = 1 then .error "boom" else .ok [1],
    index := fun _ => .ok (),
    pageCount := none }

def docW : DocRecord := { doc_id := "doc", status := "processing" }

/-- Witness for C6: three chunks, the embedding of chunk 1 fails; the run
ends in `status="error"` with chunk 0 left in the store. -/
theorem ingestion_error_and_success_witness :
    envW.extract = .ok chunksW ∧ 1 < chunksW.length ∧
    (∀ j, j < 1 → (∃ v, envW.embed j = .ok v) ∧ envW.index j = .ok ()) ∧
    (envW.embed 1 = .error "boom" ∨
      ((∃ v, envW.embed 1 = .ok v) ∧ envW.index 1 = .error "boom")) ∧
    (∃ d2 : DocRecord, processDocument envW "txt" (some docW) [] =
      (some { d2 with status := "error", error := some "boom" },
       [] ++ storedChunks docW.doc_id 0 (chunksW.take 1))) :=
  ⟨rfl, by decide,
   fun j hj => by
     have hj0 : j = 0 := by omega
     subst hj0
     exact ⟨⟨[1], rfl⟩, rfl⟩,
   Or.inl rfl,
   (ingestion_error_and_success envW "txt" docW []).2.1 chunksW 1 "boom" rfl
     (by decide)
     (fun j hj => by
       have hj0 : j = 0 := by omega
       subst hj0
       exact ⟨⟨[1], rfl⟩, rfl⟩)
     (Or.inl rfl)⟩

def envPdf2 : IngestEnv :=
  { extract := .ok (processPdf (fun t => [t]) "f.pdf" ["hello", " "]),
    embed := fun _ => .ok [1],
    index := fun _ => .ok (),
    pageCount := some 2 }

/-- C10: PDF pages whose extracted text is empty or whitespace-only produce
no chunks — a chunk's `page` metadata always names a page whose stripped
text is nonempty — while `num_pages` is computed independently as the
document's total page count and written only when nonzero; a successful run
over a 2-page PDF whose second page is blank reports `num_pages = 2` while
its indexed chunks cover only page 1. -/
theorem pdf_blank_pages_and_num_pages
    (split : String → List String) (filePath : String) (pages : List String) :
    (∀ ch ∈ processPdf split filePath pages, ∀ m, ch.metadata.page = some m →
      ∃ ptext, pages[m - 1]? = some ptext ∧ pyStrip ptext ≠ "") ∧
    (∀ (d : DocRecord) (n : Nat), n ≠ 0 →
      (applyNumPages "pdf" (some n) d).num_pages = some n) ∧
    (∀ d : DocRecord, (applyNumPages "pdf" (some 0) d).num_pages = d.num_pages) ∧
    (∀ d : DocRecord, applyNumPages "pdf" none d = d) ∧
    ((processPdf (fun t => [t]) "f.pdf" ["hello", " "]).map
        (fun ch => ch.metadata.page) = [some 1]) ∧
    (∃ d2 : DocRecord, processDocument envPdf2 "pdf" (some docW) [] =
      (some { d2 with status := "processed" }, [("doc_chunk_0", "hello")]) ∧
      d2.num_pages = some 2) := by
  refine ⟨?_, ?_, ?_, ?_, ?_, ?_⟩
  · intro ch hch m hm
    rcases List.mem_flatMap.mp hch with ⟨pt, hpt, hin⟩
    by_cases hb : pyStrip pt.2 = ""
    · rw [if_pos hb] at hin
      simp at hin
    · rw [if_neg hb] at hin
      rcases List.mem_map.mp hin with ⟨t, _htm, rfl⟩
      have hm' : pt.1 + 1 = m := by simpa using hm
      refine ⟨pt.2, ?_, hb⟩
      have hg := List.mem_enum_iff_getElem?.mp hpt
      rw [← hm']
      simpa using hg
  · intro d n hn
    simp [applyNumPages, hn]
  · intro d
    simp [applyNumPages]
  · intro d
    simp [applyNumPages]
  · decide
  · exact ⟨applyNumPages "pdf" (some 2) { docW with status := "processing" },
      by decide, rfl⟩

/-- Witness for C10 at the 2-page PDF with a blank second page. -/
theorem pdf_blank_pages_and_num_pages_witness :
    ((processPdf (fun t => [t]) "f.pdf" ["hello", " "]).map
        (fun ch => ch.metadata.page) = [some 1]) ∧
    (∀ ch ∈ processPdf (fun t => [t]) "f.pdf" ["hello", " "],
      ∀ m, ch.metadata.page = some m →
        ∃ ptext, (["hello", " "] : List String)[m - 1]? = some ptext ∧
          pyStrip ptext ≠ "") :=
  ⟨(pdf_blank_pages_and_num_pages (fun t => [t]) "f.pdf" ["hello", " "]).2.2.2.2.1,
   (pdf_blank_pages_and_num_pages (fun t => [t]) "f.pdf" ["hello", " "]).1⟩

end DocQA
